import Mathlib

/-!
Verification development for the renderx-plugin-library custom-component
core: the Validator (`validateFile`, `validateAndParseJson`) and the Store
(`saveCustomComponent`, `loadCustomComponents`, `removeCustomComponent`),
plus the `LibraryPanel` grouping logic and `registerCssForComponents`.

The validator and store implementation files (`src/utils/validation.utils`
and `src/utils/storage.utils`) are not among the sources; only their tests,
callers and the specification describe them.  Those operations are
therefore modelled from the spec, as marked on each definition.  The
`LibraryPanel.tsx` code is present and is embedded directly.
-/

/-- A parsed JavaScript/JSON value.  Objects are ordered field lists
(property lookup takes the first binding); JSON numbers are modelled as
integers, since no property under study depends on float semantics. -/
inductive JsValue where
  | null
  | jsUndefined
  | bool (b : Bool)
  | num (n : Int)
  | str (s : String)
  | arr (elems : List JsValue)
  | obj (fields : List (String × JsValue))

namespace JsValue

/-- Field access on an object, `none` when the field is missing or the
value is not an object. -/
def getField : JsValue → String → Option JsValue
  | .obj fs, k => fs.lookup k
  | _, _ => none

/-- Two-step field access (`v.k1.k2`), `none` as soon as a step fails. -/
def get2 (v : JsValue) (k1 k2 : String) : Option JsValue :=
  match v.getField k1 with
  | some w => w.getField k2
  | none => none

end JsValue

/-- Categorized validation errors, one constructor per kind named in the
spec's error taxonomy; a `schemaViolation` carries the violated field. -/
inductive VErr where
  | invalidExtension
  | fileTooLarge
  | malformedJson
  | schemaViolation (field : String)
deriving DecidableEq

/-- The ValidationResult record returned by both validator entry points. -/
structure VResult where
  isValid : Bool
  errors : List VErr
  warnings : List String
  normalizedComponent : Option JsValue

/-- Descriptor of an uploaded file as seen by `validateFile`. -/
structure FileDesc where
  name : String
  sizeBytes : Nat
  mimeType : String
deriving DecidableEq

/-- The per-item size limit: 1 MB = 1,048,576 bytes. -/
def maxComponentBytes : Nat := 1048576

/-- The total storage cap: 10 MB. -/
def maxStorageBytes : Nat := 10485760

/-- ASCII lower-casing of one character, as applied to filenames. -/
def charLower (ch : Char) : Char :=
  if 'A' ≤ ch ∧ ch ≤ 'Z' then Char.ofNat (ch.toNat + 32) else ch

/-- Whether a filename ends in `.json` case-insensitively. -/
def hasJsonExt (name : String) : Bool :=
  (".json").data.isSuffixOf (name.data.map charLower)

/-- Modelled from the spec: `validateFile` from `validation.utils` (file
not in the sources).  Fails with `InvalidExtension` when the filename does
not end in `.json` case-insensitively, with `FileTooLarge` when
`sizeBytes` exceeds 1,048,576 bytes; otherwise succeeds, attaching a
warning (without failing) for an unusual MIME type. -/
def validateFile (f : FileDesc) : VResult :=
  let extErrs := if hasJsonExt f.name then [] else [VErr.invalidExtension]
  let sizeErrs := if f.sizeBytes > maxComponentBytes then [VErr.fileTooLarge] else []
  let errs := extErrs ++ sizeErrs
  let warns := if f.mimeType == "application/json" || f.mimeType == "text/json"
    then [] else ["Unusual MIME type"]
  { isValid := errs.isEmpty, errors := errs, warnings := warns, normalizedComponent := none }

/-- A required field is satisfied exactly when it is present, a string,
and non-empty. -/
def reqStringOk : Option JsValue → Bool
  | some (.str s) => !s.isEmpty
  | _ => false

/-- One `SchemaViolation` for the named field when the required-string
check fails, nothing otherwise. -/
def reqStringErrs (v : Option JsValue) (field : String) : List VErr :=
  if reqStringOk v then [] else [VErr.schemaViolation field]

/-- Modelled from the spec: the `metadata` checks of
`validateAndParseJson` — one error when `metadata` is not an object,
otherwise one error per violated rule among `metadata.type` and
`metadata.name`. -/
def metadataErrs (v : JsValue) : List VErr :=
  match v.getField "metadata" with
  | some (.obj mfs) =>
      reqStringErrs ((JsValue.obj mfs).getField "type") "metadata.type" ++
      reqStringErrs ((JsValue.obj mfs).getField "name") "metadata.name"
  | _ => [VErr.schemaViolation "metadata"]

/-- Modelled from the spec: the `ui` checks of `validateAndParseJson` —
one error when `ui` (resp. `ui.template`) is not an object, otherwise one
error per violated rule for `ui.template.tag`. -/
def uiErrs (v : JsValue) : List VErr :=
  match v.getField "ui" with
  | some (.obj ufs) =>
      match (JsValue.obj ufs).getField "template" with
      | some (.obj tfs) =>
          reqStringErrs ((JsValue.obj tfs).getField "tag") "ui.template.tag"
      | _ => [VErr.schemaViolation "ui.template"]
  | _ => [VErr.schemaViolation "ui"]

/-- Modelled from the spec: normalization of the `metadata` object — fill
`category` with `"custom"` when absent, leave everything else as
provided. -/
def normMeta : JsValue → JsValue
  | .obj mfs =>
      if (mfs.lookup "category").isSome then .obj mfs
      else .obj (mfs ++ [("category", JsValue.str "custom")])
  | m => m

/-- Modelled from the spec: normalization of a validated document — the
only change is `normMeta` applied to the value of the `metadata` field. -/
def normalizeComponent : JsValue → JsValue
  | .obj fs => .obj (fs.map (fun p => (p.1, if p.1 = "metadata" then normMeta p.2 else p.2)))
  | v => v

/-- Modelled from the spec: `validateAndParseJson` from
`validation.utils` (file not in the sources).  The JSON-parsing primitive
is external, so the argument is the parse outcome: `none` (unparseable
text) fails with `MalformedJson`; a parsed value is checked against the
structural contract with all violations collected in one pass, and on
success the normalized component is produced. -/
def validateAndParseJson : Option JsValue → VResult
  | none =>
      { isValid := false, errors := [VErr.malformedJson], warnings := [],
        normalizedComponent := none }
  | some v =>
      let errs := metadataErrs v ++ uiErrs v
      { isValid := errs.isEmpty, errors := errs, warnings := [],
        normalizedComponent := if errs.isEmpty then some (normalizeComponent v) else none }

/-- The `metadata.type` string of a component document (the uniqueness
key), `""` when absent or not a string — validated documents always have
a non-empty string here. -/
def typeStringOf (c : JsValue) : String :=
  match c.get2 "metadata" "type" with
  | some (.str s) => s
  | _ => ""

/-- The `metadata.name` display string of a component document. -/
def nameStringOf (c : JsValue) : String :=
  match c.get2 "metadata" "name" with
  | some (.str s) => s
  | _ => ""

/-- The persisted envelope around an accepted component document, as the
tests of `storage.utils` exhibit it (`id`, `uploadedAt`, `source`,
optional `originalFilename`, `component`). -/
structure CustomComponent where
  id : String
  uploadedAt : String
  source : String
  originalFilename : Option String
  component : JsValue

/-- The StorageLedger: the ordered collection of stored entries plus the
derived `currentSizeBytes` accounting. -/
structure StorageLedger where
  entries : List CustomComponent
  currentSizeBytes : Nat

/-- The empty store. -/
def emptyStore : StorageLedger := { entries := [], currentSizeBytes := 0 }

/-- Quota configuration: the per-item and total caps, whose defaults are
1 MB and 10 MB (the spec allows a configurable equivalent). -/
structure StoreConfig where
  maxItemBytes : Nat
  maxTotalBytes : Nat

/-- The default quota configuration: 1 MB per item, 10 MB total. -/
def defaultConfig : StoreConfig :=
  { maxItemBytes := maxComponentBytes, maxTotalBytes := maxStorageBytes }

/-- The store-level failure kinds of the spec's error taxonomy. -/
inductive SaveError where
  | quotaExceededItem
  | quotaExceededTotal
  | duplicateType
deriving DecidableEq

/-- Collision-avoiding id search: append a disambiguating suffix while
the candidate is taken, with enough fuel to pass every existing id. -/
def deriveIdAux (cand : String) (ids : List String) : Nat → String
  | 0 => cand
  | Nat.succ fuel => if cand ∈ ids then deriveIdAux (cand ++ "-dup") ids fuel else cand

/-- Modelled from the spec: the id of a new entry is derived
deterministically from `metadata.type`, collision-checked against the
existing ids. -/
def deriveId (t : String) (ids : List String) : String :=
  deriveIdAux t ids (ids.length + 1)

/-- Modelled from the spec: `saveCustomComponent` from `storage.utils`
(file not in the sources).  The byte-sizing primitive `sizeOf` and the
clock reading `now` are external collaborators, passed in.  Checks, in
the spec's order: per-item quota, total quota, `metadata.type`
uniqueness; each failure is reported before any mutation, leaving the
ledger untouched.  On success the new envelope is appended and the size
accounting updated in the same step. -/
def saveCustomComponent (cfg : StoreConfig) (sizeOf : JsValue → Nat)
    (st : StorageLedger) (comp : JsValue) (originalFilename : Option String)
    (now : String) : Except SaveError CustomComponent × StorageLedger :=
  let size := sizeOf comp
  if size > cfg.maxItemBytes then (.error .quotaExceededItem, st)
  else if st.currentSizeBytes + size > cfg.maxTotalBytes then (.error .quotaExceededTotal, st)
  else if st.entries.any (fun e => typeStringOf e.component == typeStringOf comp) then
    (.error .duplicateType, st)
  else
    let sc : CustomComponent :=
      { id := deriveId (typeStringOf comp) (st.entries.map (fun e => e.id)),
        uploadedAt := now, source := "user-upload",
        originalFilename := originalFilename, component := comp }
    (.ok sc, { entries := st.entries ++ [sc], currentSizeBytes := st.currentSizeBytes + size })

/-- Modelled from the spec: `loadCustomComponents` from `storage.utils`
returns all stored entries in insertion order. -/
def loadCustomComponents (st : StorageLedger) : List CustomComponent :=
  st.entries

/-- Modelled from the spec: `removeCustomComponent` from
`storage.utils`.  When no entry carries the id, returns `false` and
leaves the ledger untouched; otherwise deletes the matching entry,
recomputes the size accounting with the external `sizeOf`, and returns
`true`. -/
def removeCustomComponent (sizeOf : JsValue → Nat) (st : StorageLedger)
    (id : String) : Bool × StorageLedger :=
  if st.entries.any (fun e => e.id == id) then
    let kept := st.entries.filter (fun e => e.id != id)
    (true, { entries := kept, currentSizeBytes := (kept.map (fun e => sizeOf e.component)).sum })
  else (false, st)

/-- Whether a save outcome is a success. -/
def isOkOutcome : Except SaveError CustomComponent → Bool
  | .ok _ => true
  | .error _ => false

/-- `Array.isArray(items) ? items : []` — the `safeItems` guard of
`LibraryPanel`; `none` stands for any non-array value. -/
def safeItems {α : Type} : Option (List α) → List α
  | some xs => xs
  | none => []

/-- Append `x` to the group keyed `k`, creating the group at the end when
the key is new. -/
def addToGroup {α : Type} (g : List (String × List α)) (k : String) (x : α) :
    List (String × List α) :=
  match g with
  | [] => [(k, [x])]
  | (k', ys) :: rest =>
      if k' == k then (k', ys ++ [x]) :: rest else (k', ys) :: addToGroup rest k x

/-- Modelled from the spec: `groupComponentsByCategory` from
`library.utils` (file not in the sources) — groups the loaded components
by their category, one key per category that actually occurs, in order of
first appearance.  Generic in the category assignment `cat` so every
possible extraction of a category attribute is covered. -/
def groupComponentsByCategory {α : Type} (cat : α → String) (xs : List α) :
    List (String × List α) :=
  xs.foldl (fun g x => addToGroup g (cat x) x) []

/-- `if (!groupedComponents.custom) groupedComponents.custom = []` from
`LibraryPanel` — adds the `"custom"` key bound to the empty list when the
grouping lacks it. -/
def ensureCustomCategory {α : Type} (g : List (String × List α)) :
    List (String × List α) :=
  if (g.lookup "custom").isSome then g else g ++ [("custom", [])]

/-- The grouped-by-category mapping `LibraryPanel` renders from:
`groupComponentsByCategory` over the array-guarded items, then the
ensure-custom step. -/
def libraryGrouping {α : Type} (cat : α → String) (items : Option (List α)) :
    List (String × List α) :=
  ensureCustomCategory (groupComponentsByCategory cat (safeItems items))

/-- JavaScript truthiness of a value. -/
def truthy : JsValue → Bool
  | .null => false
  | .jsUndefined => false
  | .bool b => b
  | .num n => n != 0
  | .str s => !s.isEmpty
  | .arr _ => true
  | .obj _ => true

/-- Optional-chained property access (`v?.k`): `undefined` on a missing
field or a non-object base, as in the guarded accesses of
`registerCssForComponents`. -/
def jsGet : JsValue → String → JsValue
  | .obj fs, k => (fs.lookup k).getD .jsUndefined
  | _, _ => .jsUndefined

/-- The nullish-coalescing operator `a ?? b`. -/
def jsNullish (a b : JsValue) : JsValue :=
  match a with
  | .null => b
  | .jsUndefined => b
  | v => v

/-- Stringification as used by the template literal in
`registerCssForComponents`; arrays join their elements with commas. -/
def jsToStr : JsValue → String
  | .null => "null"
  | .jsUndefined => "undefined"
  | .bool b => if b then "true" else "false"
  | .num n => toString n
  | .str s => s
  | .arr xs => String.intercalate "," (xs.attach.map (fun p => jsToStr p.1))
  | .obj _ => "[object Object]"
decreasing_by
  have h := List.sizeOf_lt_of_mem p.2
  simp only [JsValue.arr.sizeOf_spec]
  omega

/-- `const tpl = (item as any)?.template ?? item;` -/
def tplOf (item : JsValue) : JsValue := jsNullish (jsGet item "template") item

/-- `let css = tpl?.css; if (!css && item?.ui?.styles?.css) css = item.ui.styles.css;` -/
def cssRawOf (item : JsValue) : JsValue :=
  let c := jsGet (tplOf item) "css"
  let fb := jsGet (jsGet (jsGet item "ui") "styles") "css"
  if !truthy c && truthy fb then fb else c

/-- `typeof css !== "string" || !css.trim()` skips the item; the item is
processed exactly when its css is a string with non-empty trim. -/
def goodCss (item : JsValue) : Option String :=
  match cssRawOf item with
  | .str s => if s.trim.isEmpty then none else some s
  | _ => none

/-- `Array.isArray(tpl?.classes) ? tpl.classes : []` -/
def classesOf (item : JsValue) : List JsValue :=
  match jsGet (tplOf item) "classes" with
  | .arr xs => xs
  | _ => []

/-- `classes.find((c) => c.startsWith("rx-") && c !== "rx-comp")`; calling
`startsWith` on a non-string element throws, modelled as `.error`. -/
def findBase : List JsValue → Except Unit (Option String)
  | [] => .ok none
  | .str s :: rest =>
      if s.startsWith "rx-" && s != "rx-comp" then .ok (some s) else findBase rest
  | _ :: _ => .error ()

/-- `(item as any)?.metadata?.replaces || (item as any)?.metadata?.type` -/
def metaTypeOf (item : JsValue) : JsValue :=
  let r := jsGet (jsGet item "metadata") "replaces"
  if truthy r then r else jsGet (jsGet item "metadata") "type"

/-- `const name = base || (metaType ? `rx-${metaType}` : undefined);` -/
def nameFrom (item : JsValue) (base : Option String) : Option String :=
  match base with
  | some b => some b
  | none =>
      if truthy (metaTypeOf item) then some ("rx-" ++ jsToStr (metaTypeOf item)) else none

/-- One iteration of the `registerCssForComponents` loop: skip the item
when its css is unusable, its derived name missing, or the name already
seen; otherwise record the name.  A thrown error propagates. -/
def registerCssStep (seen : List String) (item : JsValue) : Except Unit (List String) :=
  match goodCss item with
  | none => .ok seen
  | some _ =>
      match findBase (classesOf item) with
      | .error e => .error e
      | .ok base =>
          match nameFrom item base with
          | none => .ok seen
          | some n => if n ∈ seen then .ok seen else .ok (seen ++ [n])

/-- `for (const item of Array.isArray(items) ? items : [])` — the items
iterated over; any non-array value yields the empty iteration. -/
def itemsOf : JsValue → List JsValue
  | .arr xs => xs
  | _ => []

/-- The try-block body of `registerCssForComponents`: fold the loop step
over the items, starting from an empty seen set. -/
def registerCssBody (items : JsValue) : Except Unit (List String) :=
  (itemsOf items).foldlM registerCssStep []

/-- `registerCssForComponents` from `LibraryPanel.tsx`: the whole body is
wrapped in `try { ... } catch {}`, so a thrown error from the body is
swallowed and the function returns normally on every input. -/
def registerCssForComponents (items : JsValue) : Except Unit Unit :=
  match registerCssBody items with
  | .ok _ => .ok ()
  | .error _ => .ok ()

/-- The upload scenario document of the spec:
`{"metadata":{"type":"custom-alert","name":"Custom Alert"},"ui":{"template":{"tag":"div"}}}`. -/
def demoDoc : JsValue :=
  .obj [("metadata", .obj [("type", .str "custom-alert"), ("name", .str "Custom Alert")]),
        ("ui", .obj [("template", .obj [("tag", .str "div")])])]

/-- A second valid document with a different `metadata.type` but the same
`metadata.name` as `demoDoc`. -/
def demoDocB : JsValue :=
  .obj [("metadata", .obj [("type", .str "custom-badge"), ("name", .str "Custom Alert")]),
        ("ui", .obj [("template", .obj [("tag", .str "span")])])]

/-- A document sharing `metadata.type` with `demoDoc` under a different
name. -/
def demoDocDup : JsValue :=
  .obj [("metadata", .obj [("type", .str "custom-alert"), ("name", .str "Other Name")]),
        ("ui", .obj [("template", .obj [("tag", .str "p")])])]

/-- A document missing both `metadata.name` and `ui.template.tag`. -/
def demoDocMissing : JsValue :=
  .obj [("metadata", .obj [("type", .str "custom-alert")]),
        ("ui", .obj [("template", .obj [])])]

/-- A stored envelope around `demoDoc`. -/
def demoEntry : CustomComponent :=
  { id := "custom-alert", uploadedAt := "2023-10-01T10:00:00.000Z",
    source := "user-upload", originalFilename := some "custom-alert.json",
    component := demoDoc }

/-- A one-entry store holding `demoEntry`. -/
def demoStore : StorageLedger := { entries := [demoEntry], currentSizeBytes := 100 }

/-- `List.lookup` distributes over append, preferring the left list. -/
theorem lookup_append {β : Type} (l₁ l₂ : List (String × β)) (k : String) :
    (l₁ ++ l₂).lookup k = ((l₁.lookup k).or (l₂.lookup k)) := by
  induction l₁ with
  | nil => simp [List.lookup]
  | cons p rest ih =>
      obtain ⟨a, b⟩ := p
      simp only [List.cons_append, List.lookup]
      cases h : k == a
      · simpa using ih
      · simp [Option.or]

/-- `List.lookup` after a key-preserving value map. -/
theorem lookup_map_val {β : Type} (g : String → β → β) (l : List (String × β)) (k : String) :
    (l.map (fun p => (p.1, g p.1 p.2))).lookup k = (l.lookup k).map (g k) := by
  induction l with
  | nil => rfl
  | cons p rest ih =>
      obtain ⟨a, b⟩ := p
      simp only [List.map, List.lookup]
      cases h : k == a
      · simpa using ih
      · have : k = a := by simpa using h
        subst this
        simp

/-- Lookup through the field map performed by `normalizeComponent`. -/
theorem lookup_normFields (fs : List (String × JsValue)) (k : String) :
    (fs.map (fun p => (p.1, if p.1 = "metadata" then normMeta p.2 else p.2))).lookup k
      = (fs.lookup k).map (fun b => if k = "metadata" then normMeta b else b) := by
  induction fs with
  | nil => rfl
  | cons p rest ih =>
      obtain ⟨a, b⟩ := p
      simp only [List.map, List.lookup]
      cases h : k == a
      · simpa using ih
      · have : k = a := by simpa using h
        subst this
        simp

/-- Normalization changes exactly the `metadata` field, by `normMeta`. -/
theorem getField_normalizeComponent (v : JsValue) (k : String) :
    (normalizeComponent v).getField k =
      if k = "metadata" then (v.getField "metadata").map normMeta else v.getField k := by
  cases v with
  | obj fs =>
      show (fs.map _).lookup k = _
      rw [lookup_normFields]
      by_cases hk : k = "metadata"
      · simp [hk, JsValue.getField]
      · simp [hk, JsValue.getField]
  | null => simp [normalizeComponent, JsValue.getField]
  | jsUndefined => simp [normalizeComponent, JsValue.getField]
  | bool b => simp [normalizeComponent, JsValue.getField]
  | num n => simp [normalizeComponent, JsValue.getField]
  | str s => simp [normalizeComponent, JsValue.getField]
  | arr xs => simp [normalizeComponent, JsValue.getField]

/-- `normMeta` of an object is an object. -/
theorem normMeta_obj (mfs : List (String × JsValue)) :
    ∃ mfs2, normMeta (.obj mfs) = .obj mfs2 := by
  by_cases h : (mfs.lookup "category").isSome
  · exact ⟨mfs, by simp [normMeta, h]⟩
  · exact ⟨mfs ++ [("category", JsValue.str "custom")], by simp [normMeta, h]⟩

/-- When `category` is absent, `normMeta` fills it with `"custom"`. -/
theorem normMeta_category_absent (mfs : List (String × JsValue))
    (h : mfs.lookup "category" = none) :
    (normMeta (.obj mfs)).getField "category" = some (.str "custom") := by
  simp only [normMeta, h, Option.isSome_none, Bool.false_eq_true, if_false]
  show (mfs ++ [("category", JsValue.str "custom")]).lookup "category" = _
  rw [lookup_append, h]
  rfl

/-- When `category` is present, `normMeta` leaves the object untouched. -/
theorem normMeta_category_present (mfs : List (String × JsValue)) (c : JsValue)
    (h : mfs.lookup "category" = some c) :
    normMeta (.obj mfs) = .obj mfs := by
  simp [normMeta, h]

/-- `normMeta` does not change any field other than `category`. -/
theorem normMeta_getField_ne (mfs : List (String × JsValue)) (k : String)
    (hk : k ≠ "category") :
    (normMeta (.obj mfs)).getField k = (JsValue.obj mfs).getField k := by
  have hbeq : (k == "category") = false := by simpa using hk
  by_cases h : (mfs.lookup "category").isSome
  · simp [normMeta, h]
  · simp only [normMeta, h, Bool.false_eq_true, if_false]
    show (mfs ++ [("category", JsValue.str "custom")]).lookup k = mfs.lookup k
    rw [lookup_append]
    have : ([(("category" : String), JsValue.str "custom")]).lookup k = none := by
      simp [List.lookup, hbeq]
    rw [this]
    cases mfs.lookup k <;> rfl

/-- `normMeta` is idempotent. -/
theorem normMeta_idem (m : JsValue) : normMeta (normMeta m) = normMeta m := by
  cases m with
  | obj mfs =>
      by_cases h : (mfs.lookup "category").isSome
      · simp [normMeta, h]
      · have hnone : mfs.lookup "category" = none := by
          cases hx : mfs.lookup "category" <;> simp_all
        simp only [normMeta, h, Bool.false_eq_true, if_false]
        rw [if_pos]
        rw [lookup_append, hnone]
        rfl
  | null => rfl
  | jsUndefined => rfl
  | bool b => rfl
  | num n => rfl
  | str s => rfl
  | arr xs => rfl

/-- `normalizeComponent` is idempotent. -/
theorem normalizeComponent_idem (v : JsValue) :
    normalizeComponent (normalizeComponent v) = normalizeComponent v := by
  cases v with
  | obj fs =>
      simp only [normalizeComponent, List.map_map]
      congr 1
      refine List.map_congr_left ?_
      intro p hp
      by_cases h : p.1 = "metadata" <;> simp [Function.comp, h, normMeta_idem]
  | null => rfl
  | jsUndefined => rfl
  | bool b => rfl
  | num n => rfl
  | str s => rfl
  | arr xs => rfl

/-- `reqStringErrs` is silent exactly when the required-string check
passes. -/
theorem reqStringErrs_eq_nil {o : Option JsValue} {f : String} :
    reqStringErrs o f = [] ↔ reqStringOk o = true := by
  unfold reqStringErrs
  split <;> simp_all

/-- An empty `metadata` error list forces `metadata` to be an object with
passing `type` and `name` checks. -/
theorem metadataErrs_obj {v : JsValue} (h : metadataErrs v = []) :
    ∃ mfs, v.getField "metadata" = some (.obj mfs) ∧
      reqStringOk ((JsValue.obj mfs).getField "type") = true ∧
      reqStringOk ((JsValue.obj mfs).getField "name") = true := by
  unfold metadataErrs at h
  cases hm : v.getField "metadata" with
  | none => rw [hm] at h; simp at h
  | some m =>
      cases m <;> rw [hm] at h <;> simp only [List.append_eq_nil] at h
      case obj mfs =>
        exact ⟨mfs, rfl, reqStringErrs_eq_nil.mp h.1, reqStringErrs_eq_nil.mp h.2⟩
      all_goals simp_all

/-- Converse direction: passing `metadata` checks give no errors. -/
theorem metadataErrs_eq_nil_of {v : JsValue} {mfs : List (String × JsValue)}
    (hm : v.getField "metadata" = some (.obj mfs))
    (ht : reqStringOk ((JsValue.obj mfs).getField "type") = true)
    (hn : reqStringOk ((JsValue.obj mfs).getField "name") = true) :
    metadataErrs v = [] := by
  unfold metadataErrs
  rw [hm]
  simp [reqStringErrs, ht, hn]

/-- An empty `ui` error list forces `ui.template` to be an object with a
passing `tag` check. -/
theorem uiErrs_obj {v : JsValue} (h : uiErrs v = []) :
    ∃ ufs tfs, v.getField "ui" = some (.obj ufs) ∧
      (JsValue.obj ufs).getField "template" = some (.obj tfs) ∧
      reqStringOk ((JsValue.obj tfs).getField "tag") = true := by
  unfold uiErrs at h
  split at h
  next ufs heq =>
      split at h
      next tfs heq2 => exact ⟨ufs, tfs, heq, heq2, reqStringErrs_eq_nil.mp h⟩
      next => simp at h
  next => simp at h

/-- Converse direction: a passing `ui.template.tag` check gives no `ui`
errors. -/
theorem uiErrs_eq_nil_of {v : JsValue} {ufs tfs : List (String × JsValue)}
    (hu : v.getField "ui" = some (.obj ufs))
    (ht : (JsValue.obj ufs).getField "template" = some (.obj tfs))
    (hok : reqStringOk ((JsValue.obj tfs).getField "tag") = true) :
    uiErrs v = [] := by
  unfold uiErrs
  split
  next ufs2 heq =>
      rw [hu] at heq
      obtain rfl : ufs2 = ufs := by injection heq with h2; injection h2 with h3; exact h3.symm
      split
      next tfs2 heq2 =>
          rw [ht] at heq2
          obtain rfl : tfs2 = tfs := by injection heq2 with h4; injection h4 with h5; exact h5.symm
          simp [reqStringErrs, hok]
      next hne => exact absurd ht (by intro hc; exact hne _ hc)
  next hne => exact absurd hu (by intro hc; exact hne _ hc)

/-- `uiErrs` only inspects the `ui` field. -/
theorem uiErrs_congr {v w : JsValue} (h : v.getField "ui" = w.getField "ui") :
    uiErrs v = uiErrs w := by
  unfold uiErrs
  rw [h]

/-- Everything a successful save guarantees: the returned envelope wraps
the submitted component unchanged, the ledger gained exactly that
envelope at the end, the accounting grew by the measured size, and every
pre-mutation check (quota, duplicate type) had passed. -/
theorem save_ok_spec {cfg : StoreConfig} {szOf : JsValue → Nat} {st : StorageLedger}
    {comp : JsValue} {fn : Option String} {now : String} {sc : CustomComponent}
    {st2 : StorageLedger}
    (h : saveCustomComponent cfg szOf st comp fn now = (.ok sc, st2)) :
    sc.component = comp ∧ sc.uploadedAt = now ∧ sc.source = "user-upload" ∧
    sc.originalFilename = fn ∧
    st2.entries = st.entries ++ [sc] ∧
    st2.currentSizeBytes = st.currentSizeBytes + szOf comp ∧
    szOf comp ≤ cfg.maxItemBytes ∧
    st.currentSizeBytes + szOf comp ≤ cfg.maxTotalBytes ∧
    (st.entries.any fun e => typeStringOf e.component == typeStringOf comp) = false := by
  simp only [saveCustomComponent] at h
  split_ifs at h with h1 h2 h3
  · exact absurd h (by simp)
  · exact absurd h (by simp)
  · exact absurd h (by simp)
  · rw [Prod.mk.injEq] at h
    obtain ⟨hsc, hst⟩ := h
    rw [Except.ok.injEq] at hsc
    subst hsc
    subst hst
    refine ⟨rfl, rfl, rfl, rfl, rfl, rfl, by omega, by omega, by simpa using h3⟩

/-- A successful save's envelope was not among the previous entries: its
component carries the submitted type, which the duplicate check had just
found absent. -/
theorem save_ok_fresh {cfg : StoreConfig} {szOf : JsValue → Nat} {st : StorageLedger}
    {comp : JsValue} {fn : Option String} {now : String} {sc : CustomComponent}
    {st2 : StorageLedger}
    (h : saveCustomComponent cfg szOf st comp fn now = (.ok sc, st2)) :
    sc ∉ st.entries := by
  obtain ⟨hcomp, -, -, -, -, -, -, -, hdup⟩ := save_ok_spec h
  intro hmem
  have : (st.entries.any fun e => typeStringOf e.component == typeStringOf comp) = true := by
    rw [List.any_eq_true]
    exact ⟨sc, hmem, by rw [hcomp]; exact beq_self_eq_true _⟩
  rw [hdup] at this
  exact Bool.false_ne_true this

/-- Adding under a different key does not disturb a lookup. -/
theorem lookup_addToGroup_ne {α : Type} (g : List (String × List α)) (k c : String)
    (x : α) (h : c ≠ k) : (addToGroup g k x).lookup c = g.lookup c := by
  have hbeq : (c == k) = false := by simpa using h
  induction g with
  | nil => simp [addToGroup, List.lookup, hbeq]
  | cons p rest ih =>
      obtain ⟨a, ys⟩ := p
      by_cases hak : a = k
      · subst hak
        have hca : (c == a) = false := hbeq
        simp [addToGroup, List.lookup, hca]
      · have hak2 : (a == k) = false := by simpa using hak
        simp only [addToGroup, hak2, Bool.false_eq_true, if_false, List.lookup]
        cases hca : (c == a)
        · simpa using ih
        · simp

/-- Grouping items none of which carry category `c` never creates key
`c`. -/
theorem groupFold_lookup_none {α : Type} (cat : α → String) (c : String) (xs : List α)
    (g : List (String × List α)) (hg : g.lookup c = none)
    (hx : ∀ x ∈ xs, cat x ≠ c) :
    (xs.foldl (fun acc x => addToGroup acc (cat x) x) g).lookup c = none := by
  induction xs generalizing g with
  | nil => simpa using hg
  | cons y ys ih =>
      simp only [List.foldl]
      apply ih
      · rw [lookup_addToGroup_ne]
        · exact hg
        · exact fun hc => hx y (by simp) hc.symm
      · intro x hxm
        exact hx x (by simp [hxm])

/-- C1: for every normalized component accepted by `saveCustomComponent`,
a subsequent `loadCustomComponents` includes exactly the envelope created
by that save — it is appended, occurs nowhere among the earlier entries,
and its `component` field equals the saved normalized component (hence is
byte-identical under any serialization of it). -/
theorem save_loadAll_roundtrip (cfg : StoreConfig) (szOf : JsValue → Nat)
    (st : StorageLedger) (comp : JsValue) (fn : Option String) (now : String)
    (sc : CustomComponent) (st2 : StorageLedger)
    (h : saveCustomComponent cfg szOf st comp fn now = (.ok sc, st2)) :
    loadCustomComponents st2 = loadCustomComponents st ++ [sc] ∧
    sc.component = comp ∧
    sc ∉ loadCustomComponents st := by
  obtain ⟨hcomp, -, -, -, hent, -, -, -, -⟩ := save_ok_spec h
  refine ⟨?_, hcomp, ?_⟩
  · simpa [loadCustomComponents] using hent
  · simpa [loadCustomComponents] using save_ok_fresh h

/-- Witness for C1 at the spec's upload scenario document. -/
theorem save_loadAll_roundtrip_witness :
    loadCustomComponents ⟨[demoEntry], 100⟩ = loadCustomComponents emptyStore ++ [demoEntry] ∧
    demoEntry.component = demoDoc ∧
    demoEntry ∉ loadCustomComponents emptyStore :=
  save_loadAll_roundtrip defaultConfig (fun c => 100) emptyStore demoDoc
    (some "custom-alert.json") "2023-10-01T10:00:00.000Z" demoEntry ⟨[demoEntry], 100⟩ (by rfl)

/-- C6: for filenames ending in `.json` (case-insensitively),
`validateFile` reports `FileTooLarge` exactly when `sizeBytes` strictly
exceeds 1,048,576 bytes, and succeeds whenever `sizeBytes` is at most the
limit. -/
theorem validateFile_size_boundary (f : FileDesc)
    (hext : hasJsonExt f.name = true) :
    (VErr.fileTooLarge ∈ (validateFile f).errors ↔ f.sizeBytes > 1048576) ∧
    (f.sizeBytes ≤ 1048576 → (validateFile f).isValid = true) := by
  constructor
  · constructor
    · intro hmem
      by_contra hle
      simp [validateFile, hext, maxComponentBytes, hle] at hmem
    · intro hgt
      simp [validateFile, hext, maxComponentBytes, hgt]
  · intro hle
    have hno : ¬ f.sizeBytes > 1048576 := by omega
    simp [validateFile, hext, maxComponentBytes, hno]

/-- Witness for C6 at the exact limit. -/
theorem validateFile_size_boundary_witness :
    (VErr.fileTooLarge ∈ (validateFile ⟨"custom-alert.json", 1048576, "application/json"⟩).errors
        ↔ (1048576 : Nat) > 1048576) ∧
    ((1048576 : Nat) ≤ 1048576 →
      (validateFile ⟨"custom-alert.json", 1048576, "application/json"⟩).isValid = true) :=
  validateFile_size_boundary ⟨"custom-alert.json", 1048576, "application/json"⟩ (by decide)

/-- C8: removing an id not present in the store returns `false` and
leaves the ledger untouched; removing a present id returns `true` and no
entry with that id survives in a subsequent `loadCustomComponents`. -/
theorem removeCustomComponent_spec (szOf : JsValue → Nat) (st : StorageLedger)
    (cid : String) :
    ((∀ e ∈ st.entries, e.id ≠ cid) → removeCustomComponent szOf st cid = (false, st)) ∧
    ((∃ e ∈ st.entries, e.id = cid) →
      (removeCustomComponent szOf st cid).1 = true ∧
      ∀ e ∈ loadCustomComponents (removeCustomComponent szOf st cid).2, e.id ≠ cid) := by
  constructor
  · intro hall
    have hany : (st.entries.any fun e => e.id == cid) = false := by
      rw [List.any_eq_false]
      intro e he
      simpa using hall e he
    simp [removeCustomComponent, hany]
  · intro hex
    have hany : (st.entries.any fun e => e.id == cid) = true := by
      rw [List.any_eq_true]
      obtain ⟨e, he, heq⟩ := hex
      exact ⟨e, he, by simpa using heq⟩
    refine ⟨by simp [removeCustomComponent, hany], ?_⟩
    intro e he
    simp only [removeCustomComponent, hany, if_true, loadCustomComponents,
      List.mem_filter] at he
    simpa using he.2

/-- Witness for C8 on the one-entry demo store. -/
theorem removeCustomComponent_spec_witness :
    removeCustomComponent (fun _ => 1) demoStore "nonexistent-id" = (false, demoStore) ∧
    (removeCustomComponent (fun _ => 1) demoStore "custom-alert").1 = true :=
  ⟨(removeCustomComponent_spec (fun _ => 1) demoStore "nonexistent-id").1 (by decide),
   ((removeCustomComponent_spec (fun _ => 1) demoStore "custom-alert").2 (by decide)).1⟩

/-- C9: the grouped-by-category mapping `LibraryPanel` renders from
always contains the key `"custom"` — for every items value (any non-array
modelled by `none`) and every category assignment — and when no loaded
component carries that category the key is bound to the empty list, so
the upload zone is present in every render. -/
theorem libraryGrouping_always_custom {α : Type} (cat : α → String)
    (items : Option (List α)) :
    ((libraryGrouping cat items).lookup "custom").isSome = true ∧
    ((∀ x ∈ safeItems items, cat x ≠ "custom") →
      (libraryGrouping cat items).lookup "custom" = some []) := by
  unfold libraryGrouping ensureCustomCategory
  by_cases h : ((groupComponentsByCategory cat (safeItems items)).lookup "custom").isSome
  · rw [if_pos h]
    refine ⟨h, ?_⟩
    intro hall
    have hnone : (groupComponentsByCategory cat (safeItems items)).lookup "custom" = none := by
      unfold groupComponentsByCategory
      exact groupFold_lookup_none cat "custom" (safeItems items) [] rfl hall
    rw [hnone] at h
    simp at h
  · rw [if_neg h]
    have hnone : (groupComponentsByCategory cat (safeItems items)).lookup "custom" = none :=
      Option.not_isSome_iff_eq_none.mp h
    constructor
    · rw [lookup_append, hnone]
      rfl
    · intro hall
      rw [lookup_append, hnone]
      rfl

/-- Witness for C9: two items, neither of category `"custom"`. -/
theorem libraryGrouping_always_custom_witness :
    ((libraryGrouping (fun _ : Nat => "basic") (some [1, 2])).lookup "custom").isSome = true ∧
    (libraryGrouping (fun _ : Nat => "basic") (some [1, 2])).lookup "custom" = some [] :=
  ⟨(libraryGrouping_always_custom (fun _ : Nat => "basic") (some [1, 2])).1,
   (libraryGrouping_always_custom (fun _ : Nat => "basic") (some [1, 2])).2 (by decide)⟩

/-- C10: `registerCssForComponents` returns normally on every input —
the try/catch swallows anything the loop body throws, non-arrays iterate
as empty — and the loop skips, rather than fails on, any item whose css
is not a non-empty string, whose derived class name is missing, or whose
name was already processed. -/
theorem registerCssForComponents_total :
    (∀ items : JsValue, registerCssForComponents items = .ok ()) ∧
    (∀ v : JsValue, (∀ xs, v ≠ .arr xs) → registerCssBody v = .ok []) ∧
    (∀ seen item, goodCss item = none → registerCssStep seen item = .ok seen) ∧
    (∀ seen item s base, goodCss item = some s →
      findBase (classesOf item) = .ok base → nameFrom item base = none →
      registerCssStep seen item = .ok seen) ∧
    (∀ seen item s base n, goodCss item = some s →
      findBase (classesOf item) = .ok base → nameFrom item base = some n →
      n ∈ seen → registerCssStep seen item = .ok seen) := by
  refine ⟨?_, ?_, ?_, ?_, ?_⟩
  · intro items
    unfold registerCssForComponents
    cases registerCssBody items <;> rfl
  · intro v hv
    cases v
    case arr xs => exact absurd rfl (hv xs)
    all_goals rfl
  · intro seen item h
    unfold registerCssStep
    rw [h]
  · intro seen item s base h hf hn
    unfold registerCssStep
    simp only [h, hf, hn]
  · intro seen item s base n h hf hn hmem
    unfold registerCssStep
    simp only [h, hf, hn]
    simp [hmem]

/-- Witness for C10: a non-array input, and an item skipped for lacking
usable css. -/
theorem registerCssForComponents_total_witness :
    registerCssForComponents (.str "not-an-array") = .ok () ∧
    registerCssBody (.num 5) = .ok [] ∧
    registerCssStep ["rx-button"] .null = .ok ["rx-button"] :=
  ⟨registerCssForComponents_total.1 (.str "not-an-array"),
   registerCssForComponents_total.2.1 (.num 5) (fun xs h => JsValue.noConfusion h),
   registerCssForComponents_total.2.2.1 ["rx-button"] .null (by rfl)⟩

/-- C3: after a first save succeeds, a second save of any document with
the same `metadata.type` (whatever its name) fails with `DuplicateType`
and the ledger retains only the first entry, while a document with the
same `metadata.name` but a different type is accepted — uniqueness is
keyed on type, not name.  The quota bounds keep the quota checks, which
run first, out of the way. -/
theorem save_duplicateType (cfg : StoreConfig) (szOf : JsValue → Nat)
    (comp1 comp2 comp3 : JsValue) (f1 f2 f3 : Option String) (t1 t2 t3 : String)
    (sc1 : CustomComponent) (st1 : StorageLedger)
    (h1 : saveCustomComponent cfg szOf emptyStore comp1 f1 t1 = (.ok sc1, st1))
    (hty2 : typeStringOf comp2 = typeStringOf comp1)
    (hq2a : szOf comp2 ≤ cfg.maxItemBytes)
    (hq2b : st1.currentSizeBytes + szOf comp2 ≤ cfg.maxTotalBytes)
    (hnm3 : nameStringOf comp3 = nameStringOf comp1)
    (hty3 : typeStringOf comp3 ≠ typeStringOf comp1)
    (hq3a : szOf comp3 ≤ cfg.maxItemBytes)
    (hq3b : st1.currentSizeBytes + szOf comp3 ≤ cfg.maxTotalBytes) :
    saveCustomComponent cfg szOf st1 comp2 f2 t2 = (.error .duplicateType, st1) ∧
    st1.entries = [sc1] ∧
    isOkOutcome (saveCustomComponent cfg szOf st1 comp3 f3 t3).1 = true := by
  obtain ⟨hcomp1, -, -, -, hent1, -, -, -, -⟩ := save_ok_spec h1
  have hent1s : st1.entries = [sc1] := by simpa [emptyStore] using hent1
  have hdup : (st1.entries.any fun e => typeStringOf e.component == typeStringOf comp2) = true := by
    rw [hent1s]
    simp only [List.any_cons, List.any_nil, Bool.or_false]
    rw [hcomp1, hty2]
    exact beq_self_eq_true _
  have hdup3 : ¬((st1.entries.any fun e => typeStringOf e.component == typeStringOf comp3) = true) := by
    rw [hent1s]
    simp only [List.any_cons, List.any_nil, Bool.or_false, beq_iff_eq]
    rw [hcomp1]
    exact fun hc => hty3 hc.symm
  refine ⟨?_, hent1s, ?_⟩
  · simp only [saveCustomComponent]
    rw [if_neg (by omega), if_neg (by omega), if_pos hdup]
  · simp only [saveCustomComponent]
    rw [if_neg (by omega), if_neg (by omega), if_neg hdup3]
    rfl

/-- Witness for C3: `demoDocDup` shares the type of `demoDoc` under a
different name and is rejected; `demoDocB` shares the name under a
different type and is accepted. -/
theorem save_duplicateType_witness :
    saveCustomComponent defaultConfig (fun _ => 100) ⟨[demoEntry], 100⟩ demoDocDup none "t2"
      = (.error .duplicateType, ⟨[demoEntry], 100⟩) ∧
    (⟨[demoEntry], (100 : Nat)⟩ : StorageLedger).entries = [demoEntry] :=
  ⟨(save_duplicateType defaultConfig (fun _ => 100) demoDoc demoDocDup demoDocB
      (some "custom-alert.json") none none "2023-10-01T10:00:00.000Z" "t2" "t3"
      demoEntry ⟨[demoEntry], 100⟩ (by rfl) (by rfl) (by decide) (by decide)
      (by rfl) (by decide) (by decide) (by decide)).1,
   (save_duplicateType defaultConfig (fun _ => 100) demoDoc demoDocDup demoDocB
      (some "custom-alert.json") none none "2023-10-01T10:00:00.000Z" "t2" "t3"
      demoEntry ⟨[demoEntry], 100⟩ (by rfl) (by rfl) (by decide) (by decide)
      (by rfl) (by decide) (by decide) (by decide)).2.1⟩

/-- C2 counterexample: with the spec's default quota configuration — the
per-item cap of 1 MB stated alongside the 10 MB total cap — saving a
valid 9 MB document into the empty store does not succeed: it is rejected
with `QuotaExceededItem`, contradicting the claimed success of the first
step of the scenario. -/
theorem save_9MB_rejected_at_default :
    (validateAndParseJson (some demoDoc)).isValid = true ∧
    defaultConfig.maxTotalBytes = 10485760 ∧
    saveCustomComponent defaultConfig (fun _ => 9437184) emptyStore demoDoc none "t0"
      = (.error .quotaExceededItem, emptyStore) :=
  ⟨by decide, rfl, by rfl⟩

/-- C2 (amended): the scenario holds once the per-item cap admits the two
documents (the spec's per-item limit is configurable): with the total cap
at 10 MB, saving a valid 9 MB document into the empty store succeeds, and
the subsequent save of a valid 2 MB document fails with
`QuotaExceededTotal`, returning the ledger — `currentSizeBytes`
included — exactly as it was after the first save. -/
theorem save_quota_atomic (cfg : StoreConfig) (szOf : JsValue → Nat)
    (comp1 comp2 : JsValue) (f1 f2 : Option String) (t1 t2 : String)
    (hcap : cfg.maxTotalBytes = 10485760)
    (hitem1 : szOf comp1 ≤ cfg.maxItemBytes)
    (hitem2 : szOf comp2 ≤ cfg.maxItemBytes)
    (hs1 : szOf comp1 = 9437184)
    (hs2 : szOf comp2 = 2097152)
    (hv1 : (validateAndParseJson (some comp1)).isValid = true)
    (hv2 : (validateAndParseJson (some comp2)).isValid = true) :
    isOkOutcome (saveCustomComponent cfg szOf emptyStore comp1 f1 t1).1 = true ∧
    ((saveCustomComponent cfg szOf emptyStore comp1 f1 t1).2).currentSizeBytes = 9437184 ∧
    saveCustomComponent cfg szOf ((saveCustomComponent cfg szOf emptyStore comp1 f1 t1).2)
        comp2 f2 t2
      = (.error .quotaExceededTotal, (saveCustomComponent cfg szOf emptyStore comp1 f1 t1).2) := by
  have h1 : saveCustomComponent cfg szOf emptyStore comp1 f1 t1 =
      (.ok { id := deriveId (typeStringOf comp1) (emptyStore.entries.map fun e => e.id),
             uploadedAt := t1, source := "user-upload", originalFilename := f1,
             component := comp1 },
       { entries := emptyStore.entries ++
           [{ id := deriveId (typeStringOf comp1) (emptyStore.entries.map fun e => e.id),
              uploadedAt := t1, source := "user-upload", originalFilename := f1,
              component := comp1 }],
         currentSizeBytes := emptyStore.currentSizeBytes + szOf comp1 }) := by
    simp only [saveCustomComponent]
    rw [if_neg (by omega), if_neg (by simp only [emptyStore]; omega)]
    rfl
  rw [h1]
  refine ⟨rfl, by simp only [emptyStore]; omega, ?_⟩
  simp only [saveCustomComponent]
  rw [if_neg (by omega), if_pos (by simp only [emptyStore]; omega)]

/-- Witness for the amended C2: a configuration with a 10 MB total cap
and the per-item cap set to the same 10 MB, sizing `demoDoc` at 9 MB and
`demoDocB` at 2 MB. -/
theorem save_quota_atomic_witness :
    isOkOutcome (saveCustomComponent ⟨10485760, 10485760⟩
        (fun c => if typeStringOf c == "custom-alert" then 9437184 else 2097152)
        emptyStore demoDoc none "t1").1 = true ∧
    ((saveCustomComponent ⟨10485760, 10485760⟩
        (fun c => if typeStringOf c == "custom-alert" then 9437184 else 2097152)
        emptyStore demoDoc none "t1").2).currentSizeBytes = 9437184 ∧
    saveCustomComponent ⟨10485760, 10485760⟩
        (fun c => if typeStringOf c == "custom-alert" then 9437184 else 2097152)
        ((saveCustomComponent ⟨10485760, 10485760⟩
          (fun c => if typeStringOf c == "custom-alert" then 9437184 else 2097152)
          emptyStore demoDoc none "t1").2) demoDocB none "t2"
      = (.error .quotaExceededTotal,
         (saveCustomComponent ⟨10485760, 10485760⟩
          (fun c => if typeStringOf c == "custom-alert" then 9437184 else 2097152)
          emptyStore demoDoc none "t1").2) :=
  save_quota_atomic ⟨10485760, 10485760⟩
    (fun c => if typeStringOf c == "custom-alert" then 9437184 else 2097152)
    demoDoc demoDocB none none "t1" "t2" rfl (by decide) (by decide) (by decide)
    (by decide) (by decide) (by decide)

/-- Each element of a `reqStringErrs` list is the `SchemaViolation` for
that field. -/
theorem mem_reqStringErrs {e : VErr} {o : Option JsValue} {f : String}
    (h : e ∈ reqStringErrs o f) : e = VErr.schemaViolation f := by
  unfold reqStringErrs at h
  split at h
  · simp at h
  · simpa using h

/-- C4: with `metadata` and `ui.template` objects present,
`validateAndParseJson` collects its errors in one pass: each violated
required-field rule among `metadata.type`, `metadata.name` and
`ui.template.tag` contributes exactly one error, every error is a
`SchemaViolation`, and none stops the others from being reported. -/
theorem validate_counts_all_errors (v : JsValue)
    (mfs ufs tfs : List (String × JsValue))
    (hmd : v.getField "metadata" = some (.obj mfs))
    (hui : v.getField "ui" = some (.obj ufs))
    (htpl : (JsValue.obj ufs).getField "template" = some (.obj tfs)) :
    (validateAndParseJson (some v)).errors.length =
      ((if reqStringOk ((JsValue.obj mfs).getField "type") then 0 else 1) +
       (if reqStringOk ((JsValue.obj mfs).getField "name") then 0 else 1) +
       (if reqStringOk ((JsValue.obj tfs).getField "tag") then 0 else 1)) ∧
    ∀ e ∈ (validateAndParseJson (some v)).errors, ∃ fld, e = VErr.schemaViolation fld := by
  have hmde : metadataErrs v =
      reqStringErrs ((JsValue.obj mfs).getField "type") "metadata.type" ++
      reqStringErrs ((JsValue.obj mfs).getField "name") "metadata.name" := by
    unfold metadataErrs
    simp only [hmd]
  have huie : uiErrs v =
      reqStringErrs ((JsValue.obj tfs).getField "tag") "ui.template.tag" := by
    unfold uiErrs
    simp only [hui, htpl]
  have herr : (validateAndParseJson (some v)).errors = metadataErrs v ++ uiErrs v := rfl
  rw [herr, hmde, huie]
  constructor
  · by_cases h1 : reqStringOk ((JsValue.obj mfs).getField "type") <;>
    by_cases h2 : reqStringOk ((JsValue.obj mfs).getField "name") <;>
    by_cases h3 : reqStringOk ((JsValue.obj tfs).getField "tag") <;>
      simp [reqStringErrs, h1, h2, h3]
  · intro e he
    rcases List.mem_append.mp he with hab | hc
    · rcases List.mem_append.mp hab with ha | hb
      · exact ⟨"metadata.type", mem_reqStringErrs ha⟩
      · exact ⟨"metadata.name", mem_reqStringErrs hb⟩
    · exact ⟨"ui.template.tag", mem_reqStringErrs hc⟩

/-- Witness for C4: a document missing both `metadata.name` and
`ui.template.tag` yields exactly two errors. -/
theorem validate_counts_all_errors_witness :
    (validateAndParseJson (some demoDocMissing)).errors.length = 2 :=
  ((validate_counts_all_errors demoDocMissing
      [("type", JsValue.str "custom-alert")] [("template", JsValue.obj [])] []
      (by rfl) (by rfl) (by rfl)).1).trans (by decide)

/-- C5: on every input that passes validation, the produced
`normalizedComponent` has `metadata.category` equal to `"custom"`
whenever the input omitted it; a provided `category`, every other
`metadata` field, and every field outside `metadata` are left exactly as
provided. -/
theorem normalization_defaults_category (v n : JsValue)
    (hn : (validateAndParseJson (some v)).normalizedComponent = some n) :
    (v.get2 "metadata" "category" = none →
      n.get2 "metadata" "category" = some (.str "custom")) ∧
    (∀ c, v.get2 "metadata" "category" = some c →
      n.get2 "metadata" "category" = some c) ∧
    (∀ k, k ≠ "metadata" → n.getField k = v.getField k) ∧
    (∀ k, k ≠ "category" → n.get2 "metadata" k = v.get2 "metadata" k) := by
  have hn' : (if (metadataErrs v ++ uiErrs v).isEmpty then some (normalizeComponent v)
      else none) = some n := hn
  by_cases he : (metadataErrs v ++ uiErrs v).isEmpty = true
  · rw [if_pos he] at hn'
    obtain rfl : normalizeComponent v = n := by injection hn'
    have hisnil : metadataErrs v ++ uiErrs v = [] := by simpa using he
    have hmd0 : metadataErrs v = [] := (List.append_eq_nil.mp hisnil).1
    obtain ⟨mfs, hm, -, -⟩ := metadataErrs_obj hmd0
    have hmn : (normalizeComponent v).getField "metadata" = some (normMeta (.obj mfs)) := by
      rw [getField_normalizeComponent, if_pos rfl, hm]
      rfl
    have hv2 : v.get2 "metadata" "category" = (JsValue.obj mfs).getField "category" := by
      simp only [JsValue.get2, hm]
    refine ⟨?_, ?_, ?_, ?_⟩
    · intro hcat
      rw [hv2] at hcat
      simp only [JsValue.get2, hmn]
      exact normMeta_category_absent mfs hcat
    · intro c hc
      rw [hv2] at hc
      simp only [JsValue.get2, hmn]
      rw [normMeta_category_present mfs c hc]
      exact hc
    · intro k hk
      rw [getField_normalizeComponent, if_neg hk]
    · intro k hk
      simp only [JsValue.get2, hmn, hm]
      exact normMeta_getField_ne mfs k hk
  · rw [if_neg he] at hn'
    cases hn'

/-- Witness for C5 at the spec's scenario document, which omits
`metadata.category`. -/
theorem normalization_defaults_category_witness :
    (normalizeComponent demoDoc).get2 "metadata" "category" = some (.str "custom") ∧
    (normalizeComponent demoDoc).getField "ui" = demoDoc.getField "ui" :=
  ⟨(normalization_defaults_category demoDoc (normalizeComponent demoDoc) (by rfl)).1 (by rfl),
   (normalization_defaults_category demoDoc (normalizeComponent demoDoc) (by rfl)).2.2.1
      "ui" (by decide)⟩

/-- C7: validation-normalization is idempotent — a document that is the
`normalizedComponent` output of a successful `validateAndParseJson`
re-validates successfully and yields exactly itself, with no field
drift. -/
theorem validate_normalized_idempotent (v n : JsValue)
    (hn : (validateAndParseJson (some v)).normalizedComponent = some n) :
    (validateAndParseJson (some n)).isValid = true ∧
    (validateAndParseJson (some n)).normalizedComponent = some n := by
  have hn' : (if (metadataErrs v ++ uiErrs v).isEmpty then some (normalizeComponent v)
      else none) = some n := hn
  by_cases he : (metadataErrs v ++ uiErrs v).isEmpty = true
  · rw [if_pos he] at hn'
    obtain rfl : normalizeComponent v = n := by injection hn'
    have hisnil : metadataErrs v ++ uiErrs v = [] := by simpa using he
    have hmd0 : metadataErrs v = [] := (List.append_eq_nil.mp hisnil).1
    have hui0 : uiErrs v = [] := (List.append_eq_nil.mp hisnil).2
    obtain ⟨mfs, hm, ht, hnm⟩ := metadataErrs_obj hmd0
    have hmn : (normalizeComponent v).getField "metadata" = some (normMeta (.obj mfs)) := by
      rw [getField_normalizeComponent, if_pos rfl, hm]
      rfl
    obtain ⟨mfs2, hm2⟩ := normMeta_obj mfs
    have htype2 : (JsValue.obj mfs2).getField "type" = (JsValue.obj mfs).getField "type" := by
      rw [← hm2]
      exact normMeta_getField_ne mfs "type" (by decide)
    have hname2 : (JsValue.obj mfs2).getField "name" = (JsValue.obj mfs).getField "name" := by
      rw [← hm2]
      exact normMeta_getField_ne mfs "name" (by decide)
    have hmdn : metadataErrs (normalizeComponent v) = [] :=
      @metadataErrs_eq_nil_of (normalizeComponent v) mfs2 (by rw [hmn, hm2])
        (by rw [htype2]; exact ht) (by rw [hname2]; exact hnm)
    have hEq : (normalizeComponent v).getField "ui" = v.getField "ui" := by
      rw [getField_normalizeComponent, if_neg (by decide)]
    have huin : uiErrs (normalizeComponent v) = [] := by
      rw [uiErrs_congr hEq]
      exact hui0
    have herrs : (metadataErrs (normalizeComponent v) ++ uiErrs (normalizeComponent v)).isEmpty
        = true := by
      rw [hmdn, huin]
      rfl
    refine ⟨herrs, ?_⟩
    have hproj : (validateAndParseJson (some (normalizeComponent v))).normalizedComponent =
        (if (metadataErrs (normalizeComponent v) ++ uiErrs (normalizeComponent v)).isEmpty
          then some (normalizeComponent (normalizeComponent v)) else none) := rfl
    rw [hproj, if_pos herrs, normalizeComponent_idem]
  · rw [if_neg he] at hn'
    cases hn'

/-- Witness for C7 at the normalized spec scenario document. -/
theorem validate_normalized_idempotent_witness :
    (validateAndParseJson (some (normalizeComponent demoDoc))).isValid = true ∧
    (validateAndParseJson (some (normalizeComponent demoDoc))).normalizedComponent
      = some (normalizeComponent demoDoc) :=
  validate_normalized_idempotent demoDoc (normalizeComponent demoDoc) (by rfl)
